import Mathlib

/-!
Verification of the poly1305 Go wrapper (codahale/poly1305).

The Go files under verification are a thin streaming-hash adapter around the
poly1305-donna C arithmetic core.  The C core itself is not part of the Go
sources, so its behaviour (init / update / finish, including the internal
block buffer) is modelled from the design specification; the Go-level
functions `New`, `Reset`, `Write`, `Sum` are embedded directly from the Go
source.
-/

/-- The Poly1305 prime 2^130 - 5. -/
def p1305 : Nat := 2 ^ 130 - 5

/-- Little-endian interpretation of a list of bytes as a natural number. -/
def leNum : List Nat → Nat
  | [] => 0
  | b :: bs => b + 256 * leNum bs

/-- The `len` low-order bytes of `n`, little-endian. -/
def toLEBytes : Nat → Nat → List Nat
  | 0, _ => []
  | k + 1, n => n % 256 :: toLEBytes k (n / 256)

/-- Modelled from the spec: clamping of a single byte of `r` (poly1305-donna
core, not in the Go sources).  The top 4 bits of bytes 3, 7, 11, 15 are
cleared and the bottom 2 bits of bytes 4, 8, 12 are cleared. -/
def clampByte (i b : Nat) : Nat :=
  if i = 3 ∨ i = 7 ∨ i = 11 ∨ i = 15 then b % 16
  else if i = 4 ∨ i = 8 ∨ i = 12 then b / 4 * 4
  else b

/-- Modelled from the spec: the clamped multiplier `r`, read little-endian
from the first 16 key bytes. -/
def clampR (rb : List Nat) : Nat :=
  leNum (List.zipWith clampByte (List.range 16) rb)

/-- Modelled from the spec: absorbing one block.  A full 16-byte block gets
the 2^128 marker bit; a final partial block of length L is padded with a
single 0x01 byte, i.e. gets 2^(8·L) added.  Both cases are `2 ^ (8 * len)`. -/
def blockStep (r acc : Nat) (block : List Nat) : Nat :=
  ((acc + leNum block + 2 ^ (8 * block.length)) * r) % p1305

/-- Iterate `blockStep` a given number of times, each time consuming the
first 16 bytes of the remaining data. -/
def absorbBlocks (r : Nat) : Nat → Nat → List Nat → Nat × List Nat
  | 0, acc, data => (acc, data)
  | n + 1, acc, data => absorbBlocks r n (blockStep r acc (data.take 16)) (data.drop 16)

/-- Modelled from the spec: absorb complete 16-byte blocks from `data` while
at least 16 bytes remain, returning the new accumulator and the leftover
bytes (fewer than 16). -/
def absorbFull (r acc : Nat) (data : List Nat) : Nat × List Nat :=
  absorbBlocks r (data.length / 16) acc data

/-- Modelled from the spec: the poly1305-donna state — clamped multiplier
`r`, finalization mask `s`, accumulator, and the 0–15 byte block buffer. -/
structure P1305State where
  r : Nat
  s : Nat
  acc : Nat
  buffer : List Nat
deriving DecidableEq, Repr

/-- Modelled from the spec: `poly1305_init` — split the 32-byte key into
`r` (clamped) and `s`, zero the accumulator, empty the buffer. -/
def poly1305_init (key : List Nat) : P1305State :=
  { r := clampR (key.take 16)
    s := leNum ((key.drop 16).take 16)
    acc := 0
    buffer := [] }

/-- Modelled from the spec: `poly1305_update` — append the input to the
buffer and absorb every complete 16-byte block. -/
def poly1305_update (st : P1305State) (buf : List Nat) : P1305State :=
  { st with
    acc := (absorbFull st.r st.acc (st.buffer ++ buf)).1
    buffer := (absorbFull st.r st.acc (st.buffer ++ buf)).2 }

/-- Modelled from the spec: `poly1305_finish` — absorb the buffered partial
block (if any, padded), reduce the accumulator to its canonical residue
modulo 2^130 − 5, add `s` modulo 2^128, and emit 16 little-endian bytes.
Operates on a copy of the state (non-mutating finalization). -/
def poly1305_finish (st : P1305State) : List Nat :=
  let a := if st.buffer = [] then st.acc else blockStep st.r st.acc st.buffer
  toLEBytes 16 ((a % p1305 + st.s) % 2 ^ 128)

/-- The construction-time error: `ErrInvalidKey`. -/
inductive GoError where
  | invalidKey
deriving DecidableEq, Repr

/-- The Go `poly1305` struct: the private copied key and the C state. -/
structure GoHash where
  key : List Nat
  state : P1305State
deriving DecidableEq, Repr

namespace poly1305

/-- `KeySize` from the Go source. -/
def KeySize : Nat := 32

/-- `BlockSize` from the Go source. -/
def BlockSize : Nat := 16

/-- `Size` from the Go source. -/
def Size : Nat := 16

/-- Go `New`: reject keys whose length is not 32, otherwise take a private
copy of the key and Reset (which initializes the C state from the copy). -/
def New (key : List Nat) : Except GoError GoHash :=
  if key.length ≠ KeySize then .error .invalidKey
  else .ok { key := key, state := poly1305_init key }

/-- Go `Reset`: re-initialize the C state from the stored key copy. -/
def Reset (h : GoHash) : GoHash :=
  { h with state := poly1305_init h.key }

/-- Go `Write`: feed the buffer to `poly1305_update`; return `(len buf, nil)`
and the updated hash. -/
def Write (h : GoHash) (buf : List Nat) : (Nat × Option GoError) × GoHash :=
  ((buf.length, none), { h with state := poly1305_update h.state buf })

/-- Go `Sum`: compute the 16-byte tag by `poly1305_finish` and append it to
the caller's buffer; the hash state is unchanged. -/
def Sum (h : GoHash) (buf : List Nat) : List Nat × GoHash :=
  (buf ++ poly1305_finish h.state, h)

end poly1305

/-- Write the chunks to the hash in order, keeping the final hash. -/
def writeChunks (h : GoHash) (cs : List (List Nat)) : GoHash :=
  cs.foldl (fun h c => (poly1305.Write h c).2) h

/-- An observable call on a live hash instance: a Write or a Sum. -/
inductive GoOp where
  | write (buf : List Nat)
  | sum (pre : List Nat)

/-- Apply one call to a hash instance, keeping the resulting instance. -/
def applyOp (h : GoHash) : GoOp → GoHash
  | .write buf => (poly1305.Write h buf).2
  | .sum pre => (poly1305.Sum h pre).2

/-- Apply a sequence of calls to a hash instance. -/
def applyOps (h : GoHash) (ops : List GoOp) : GoHash :=
  ops.foldl applyOp h

/-- Byte-addressed memory, for the aliasing behaviour of `New`. -/
def Mem : Type := Nat → Nat

/-- Overwrite the `bs.length` bytes starting at address `p`. -/
def writeBytes (m : Mem) (p : Nat) (bs : List Nat) : Mem :=
  fun a => if p ≤ a ∧ a < p + bs.length then bs.getD (a - p) 0 else m a

/-- Read `n` bytes starting at address `p`. -/
def readBytes (m : Mem) (p n : Nat) : List Nat :=
  (List.range n).map (fun i => m (p + i))

/-- A hash instance whose private key copy lives in memory: `keyPtr` is the
base address of the 32-byte backing array allocated by `New`. -/
structure MemHash where
  keyPtr : Nat
  st : P1305State

/-- Go `New` at the memory level: given the caller's key slice at `kp` of
length `klen` and a freshly allocated 32-byte array at `a`, validate the
length, copy the key bytes into the fresh array, and initialize the state
from the private copy (`h.key = make(...); copy(h.key, key); h.Reset()`). -/
def NewMem (m : Mem) (kp klen a : Nat) : Except GoError (Mem × MemHash) :=
  if klen ≠ 32 then .error .invalidKey
  else
    let m2 := writeBytes m a (readBytes m kp 32)
    .ok (m2, { keyPtr := a, st := poly1305_init (readBytes m2 a 32) })

/-- Go `Reset` at the memory level: re-initialize the state from the bytes
of the private key array. -/
def ResetMem (m : Mem) (h : MemHash) : MemHash :=
  { h with st := poly1305_init (readBytes m h.keyPtr 32) }

/-- The observable output of one instance: the tag of `msg1`, then the tag
of `msg2` computed after a `Reset` (which re-reads the private key array
from memory `m`). -/
def runTags (m : Mem) (mh : MemHash) (msg1 msg2 : List Nat) : List Nat × List Nat :=
  (poly1305_finish (poly1305_update mh.st msg1),
   poly1305_finish (poly1305_update (ResetMem m mh).st msg2))

/-- The all-zero memory. -/
def memZero : Mem := fun _ => 0

def keyVec : List Nat :=
  [0x74, 0x68, 0x69, 0x73, 0x20, 0x69, 0x73, 0x20,
   0x33, 0x32, 0x2d, 0x62, 0x79, 0x74, 0x65, 0x20,
   0x6b, 0x65, 0x79, 0x20, 0x66, 0x6f, 0x72, 0x20,
   0x50, 0x6f, 0x6c, 0x79, 0x31, 0x33, 0x30, 0x35]

def msgHello : List Nat :=
  [0x48, 0x65, 0x6c, 0x6c, 0x6f, 0x20, 0x77, 0x6f, 0x72, 0x6c, 0x64, 0x21]

def tagHello : List Nat :=
  [0xa6, 0xf7, 0x45, 0x00, 0x8f, 0x81, 0xc9, 0x16,
   0xa2, 0x0d, 0xcc, 0x74, 0xee, 0xf2, 0xb2, 0xf0]

def zeros32 : List Nat := List.replicate 32 0

def tag49ec : List Nat :=
  [0x49, 0xec, 0x78, 0x09, 0x0e, 0x48, 0x1e, 0xc6,
   0xc2, 0x6b, 0x33, 0xb9, 0x1c, 0xcc, 0x03, 0x07]

/-! ## Helper lemmas -/

theorem toLEBytes_length (k : Nat) : ∀ n, (toLEBytes k n).length = k := by
  induction k with
  | zero => intro n; rfl
  | succ k ih => intro n; simp [toLEBytes, ih]

theorem poly1305_finish_length (st : P1305State) : (poly1305_finish st).length = 16 := by
  simp [poly1305_finish, toLEBytes_length]

theorem absorbFull_of_lt (r acc : Nat) {data : List Nat} (h : data.length < 16) :
    absorbFull r acc data = (acc, data) := by
  unfold absorbFull
  rw [Nat.div_eq_of_lt h]
  rfl

theorem absorbFull_of_le (r acc : Nat) {data : List Nat} (h : 16 ≤ data.length) :
    absorbFull r acc data
      = absorbFull r (blockStep r acc (data.take 16)) (data.drop 16) := by
  unfold absorbFull
  have h1 : data.length / 16 = (data.length - 16) / 16 + 1 := by
    conv_lhs => rw [show data.length = data.length - 16 + 16 by omega]
    rw [Nat.add_div_right _ (by norm_num)]
  rw [h1, absorbBlocks]
  simp [List.length_drop]

theorem absorbBlocks_snd_length (r : Nat) :
    ∀ (n acc : Nat) (data : List Nat), 16 * n ≤ data.length →
      ((absorbBlocks r n acc data).2).length = data.length - 16 * n := by
  intro n
  induction n with
  | zero => intro acc data _; simp [absorbBlocks]
  | succ n ih =>
      intro acc data hle
      rw [absorbBlocks, ih _ _ (by simp [List.length_drop]; omega)]
      simp [List.length_drop]
      omega

theorem absorbFull_snd_length (r acc : Nat) (data : List Nat) :
    ((absorbFull r acc data).2).length = data.length % 16 := by
  unfold absorbFull
  rw [absorbBlocks_snd_length]
  · have := Nat.div_add_mod data.length 16
    omega
  · rw [Nat.mul_comm]
    exact Nat.div_mul_le_self data.length 16

theorem absorbFull_append_aux (r : Nat) (n : Nat) :
    ∀ (acc : Nat) (d e : List Nat), d.length ≤ n →
      absorbFull r acc (d ++ e)
        = absorbFull r (absorbFull r acc d).1 ((absorbFull r acc d).2 ++ e) := by
  induction n with
  | zero =>
      intro acc d e hd
      have hnil : d = [] := List.eq_nil_of_length_eq_zero (Nat.le_zero.mp hd)
      subst hnil
      have h0 : absorbFull r acc [] = (acc, []) :=
        absorbFull_of_lt r acc (by simp)
      rw [h0]
  | succ n ih =>
      intro acc d e hd
      by_cases h16 : 16 ≤ d.length
      · have h16e : 16 ≤ (d ++ e).length := by simp [List.length_append]; omega
        rw [absorbFull_of_le r acc h16e, absorbFull_of_le r acc h16]
        have ht : (d ++ e).take 16 = d.take 16 := by
          rw [List.take_append_eq_append_take, Nat.sub_eq_zero_of_le h16]
          simp
        have hdp : (d ++ e).drop 16 = d.drop 16 ++ e := by
          rw [List.drop_append_eq_append_drop, Nat.sub_eq_zero_of_le h16]
          simp
        rw [ht, hdp]
        exact ih _ (d.drop 16) e (by simp [List.length_drop]; omega)
      · have h0 : absorbFull r acc d = (acc, d) :=
          absorbFull_of_lt r acc (by omega)
        rw [h0]

theorem absorbFull_append (r acc : Nat) (d e : List Nat) :
    absorbFull r acc (d ++ e)
      = absorbFull r (absorbFull r acc d).1 ((absorbFull r acc d).2 ++ e) :=
  absorbFull_append_aux r d.length acc d e (Nat.le_refl _)

theorem poly1305_update_append (st : P1305State) (a b : List Nat) :
    poly1305_update (poly1305_update st a) b = poly1305_update st (a ++ b) := by
  simp only [poly1305_update]
  rw [← List.append_assoc st.buffer a b,
    absorbFull_append st.r st.acc (st.buffer ++ a) b]

theorem poly1305_update_nil (st : P1305State) (hb : st.buffer.length < 16) :
    poly1305_update st [] = st := by
  simp only [poly1305_update, List.append_nil]
  rw [absorbFull_of_lt _ _ hb]

theorem poly1305_update_buffer_length (st : P1305State) (buf : List Nat) :
    ((poly1305_update st buf).buffer).length < 16 := by
  simp only [poly1305_update]
  rw [absorbFull_snd_length]
  exact Nat.mod_lt _ (by norm_num)

theorem writeChunks_flatten (cs : List (List Nat)) :
    ∀ h : GoHash, h.state.buffer.length < 16 →
      writeChunks h cs = (poly1305.Write h cs.flatten).2 := by
  induction cs with
  | nil =>
      intro h hb
      show h = { h with state := poly1305_update h.state [] }
      rw [poly1305_update_nil h.state hb]
  | cons c cs ih =>
      intro h hb
      show writeChunks ((poly1305.Write h c).2) cs = _
      rw [ih _ (poly1305_update_buffer_length _ _)]
      show ({ h with state := poly1305_update (poly1305_update h.state c) cs.flatten } : GoHash) = _
      rw [poly1305_update_append]
      rfl

theorem applyOp_key (h : GoHash) (op : GoOp) : (applyOp h op).key = h.key := by
  cases op <;> rfl

theorem applyOps_key (ops : List GoOp) : ∀ h : GoHash, (applyOps h ops).key = h.key := by
  induction ops with
  | nil => intro h; rfl
  | cons op ops ih =>
      intro h
      show (applyOps (applyOp h op) ops).key = h.key
      rw [ih, applyOp_key]

theorem readBytes_writeBytes_disjoint (m : Mem) (p q n : Nat) (bs : List Nat)
    (hdisj : p + bs.length ≤ q ∨ q + n ≤ p) :
    readBytes (writeBytes m p bs) q n = readBytes m q n := by
  unfold readBytes
  apply List.map_congr_left
  intro i hi
  rw [List.mem_range] at hi
  show writeBytes m p bs (q + i) = m (q + i)
  unfold writeBytes
  rw [if_neg (by omega)]

/-! ## The claims -/

/-- C1: for an instance built by New on the 32-byte key
746869732069732033322d62797465206b657920666f7220506f6c7931333035,
writing the message 48656c6c6f20776f726c6421 and then calling Sum(nil)
returns exactly the 16 bytes a6f745008f81c916a20dcc74eef2b2f0. -/
theorem C1_hello_world_vector :
    (poly1305.New keyVec).map
        (fun h => (poly1305.Sum ((poly1305.Write h msgHello).2) []).1)
      = .ok tagHello := by
  rfl

/-- C2: Sum does not mutate the live hash state — Sum returns the instance
unchanged, a second Sum with no intervening Write returns the same bytes,
and a Write after a Sum behaves exactly as a Write without the Sum. -/
theorem C2_sum_does_not_mutate (h : GoHash) (pre m : List Nat) :
    (poly1305.Sum h pre).2 = h
    ∧ (poly1305.Sum ((poly1305.Sum h pre).2) pre).1 = (poly1305.Sum h pre).1
    ∧ poly1305.Write ((poly1305.Sum h pre).2) m = poly1305.Write h m :=
  ⟨rfl, rfl, rfl⟩

/-- C3: for every byte-slice argument, Sum returns that argument followed by
the 16-byte tag: the result has length `pre.length + 16`, its first bytes
are `pre`, and its last 16 bytes are the tag of the current state. -/
theorem C3_sum_appends_tag (h : GoHash) (pre : List Nat) :
    ((poly1305.Sum h pre).1).length = pre.length + 16
    ∧ ((poly1305.Sum h pre).1).take pre.length = pre
    ∧ ((poly1305.Sum h pre).1).drop pre.length = poly1305_finish h.state := by
  refine ⟨?_, ?_, ?_⟩
  · simp [poly1305.Sum, poly1305_finish_length]
  · show (pre ++ poly1305_finish h.state).take pre.length = pre
    exact List.take_left _ _
  · show (pre ++ poly1305_finish h.state).drop pre.length = _
    exact List.drop_left _ _

/-- C4, counterexample: under the key 7468...3035 the EMPTY message does not
produce the tag 49ec78090e481ec6c26b33b91ccc0307 — the empty-message tag is
the second key half 6b65792 0666f7220506f6c7931333035 instead.  The tag
49ec... belongs to the 32-byte all-zero message of the code's test vector. -/
theorem C4_counterexample :
    (poly1305.New keyVec).map (fun h => (poly1305.Sum h []).1) ≠ .ok tag49ec := by
  intro hEq
  have hval : (poly1305.New keyVec).map (fun h => (poly1305.Sum h []).1)
      = .ok [0x6b, 0x65, 0x79, 0x20, 0x66, 0x6f, 0x72, 0x20,
             0x50, 0x6f, 0x6c, 0x79, 0x31, 0x33, 0x30, 0x35] := by rfl
  rw [hval] at hEq
  exact absurd (Except.ok.inj hEq) (by decide)

/-- C4, amended: for an instance built by New on the key 7468...3035,
writing the 32-byte all-zero message and then calling Sum(nil) returns
exactly the 16 bytes 49ec78090e481ec6c26b33b91ccc0307. -/
theorem C4_amended_zero_message_vector :
    (poly1305.New keyVec).map
        (fun h => (poly1305.Sum ((poly1305.Write h zeros32).2) []).1)
      = .ok tag49ec := by
  rfl

/-- C5: New fails with the invalid-key error exactly when the key length is
not 32; for a 32-byte key it returns a hasher holding the key unchanged
(no truncation or padding) with the freshly initialized state. -/
theorem C5_key_length_validation (key : List Nat) :
    (key.length ≠ 32 → poly1305.New key = .error .invalidKey)
    ∧ (key.length = 32 →
        poly1305.New key = .ok { key := key, state := poly1305_init key }) := by
  constructor
  · intro hne
    simp [poly1305.New, poly1305.KeySize, hne]
  · intro he
    simp [poly1305.New, poly1305.KeySize, he]

/-- Witness for C5 at key lengths 0, 16, 31, 33, 64 and 32. -/
theorem C5_witness :
    poly1305.New [] = .error .invalidKey
    ∧ poly1305.New (List.replicate 16 0) = .error .invalidKey
    ∧ poly1305.New (List.replicate 31 0) = .error .invalidKey
    ∧ poly1305.New (List.replicate 33 0) = .error .invalidKey
    ∧ poly1305.New (List.replicate 64 0) = .error .invalidKey
    ∧ poly1305.New keyVec = .ok { key := keyVec, state := poly1305_init keyVec } :=
  ⟨(C5_key_length_validation []).1 (by decide),
   (C5_key_length_validation _).1 (by decide),
   (C5_key_length_validation _).1 (by decide),
   (C5_key_length_validation _).1 (by decide),
   (C5_key_length_validation _).1 (by decide),
   (C5_key_length_validation keyVec).2 (by decide)⟩

/-- C6: chunking invariance — for every 32-byte key, every message, and
every way of splitting the message into chunks (zero-length chunks
included), writing the chunks in order and then calling Sum yields the same
tag as writing the whole message in one call and calling Sum. -/
theorem C6_chunking_invariance (k : List Nat) (h : GoHash)
    (hk : poly1305.New k = .ok h) (chunks : List (List Nat)) :
    (poly1305.Sum (writeChunks h chunks) []).1
      = (poly1305.Sum ((poly1305.Write h chunks.flatten).2) []).1 := by
  have hb : h.state.buffer.length < 16 := by
    unfold poly1305.New at hk
    split at hk
    · exact Except.noConfusion hk
    · rw [← Except.ok.inj hk]
      show (poly1305_init k).buffer.length < 16
      simp [poly1305_init]
  rw [writeChunks_flatten chunks h hb]

/-- Witness for C6: a concrete split of the message into three chunks, one
of them empty, under the concrete test key. -/
theorem C6_witness :
    (poly1305.Sum (writeChunks { key := keyVec, state := poly1305_init keyVec }
        [[0x48, 0x65], [], [0x6c, 0x6c, 0x6f, 0x20, 0x77, 0x6f, 0x72, 0x6c, 0x64, 0x21]]) []).1
      = (poly1305.Sum ((poly1305.Write { key := keyVec, state := poly1305_init keyVec }
          ([[0x48, 0x65], [], [0x6c, 0x6c, 0x6f, 0x20, 0x77, 0x6f, 0x72, 0x6c, 0x64, 0x21]] : List (List Nat)).flatten).2) []).1 :=
  C6_chunking_invariance keyVec { key := keyVec, state := poly1305_init keyVec } rfl
    [[0x48, 0x65], [], [0x6c, 0x6c, 0x6f, 0x20, 0x77, 0x6f, 0x72, 0x6c, 0x64, 0x21]]

/-- C7: for every 32-byte key, Sum with no prior Write returns a 16-byte
tag equal to the zero accumulator canonically reduced and then the second
key half `s` added modulo 2^128, with no failure. -/
theorem C7_empty_message_sum (k : List Nat) (h : GoHash)
    (hk : poly1305.New k = .ok h) :
    (poly1305.Sum h []).1
        = toLEBytes 16 ((0 % p1305 + leNum ((k.drop 16).take 16)) % 2 ^ 128)
    ∧ ((poly1305.Sum h []).1).length = 16 := by
  constructor
  · unfold poly1305.New at hk
    split at hk
    · exact Except.noConfusion hk
    · rw [← Except.ok.inj hk]
      rfl
  · show ([] ++ poly1305_finish h.state).length = 16
    simp [poly1305_finish_length]

/-- Witness for C7 at the concrete test key. -/
theorem C7_witness :
    (poly1305.Sum { key := keyVec, state := poly1305_init keyVec } []).1
        = toLEBytes 16 ((0 % p1305 + leNum ((keyVec.drop 16).take 16)) % 2 ^ 128)
    ∧ ((poly1305.Sum { key := keyVec, state := poly1305_init keyVec } []).1).length = 16 :=
  C7_empty_message_sum keyVec { key := keyVec, state := poly1305_init keyVec } rfl

/-- C8: Reset restores the initial keyed state — after any sequence of
Write and Sum calls, Reset returns the instance produced by New (buffer
cleared), so a message written after Reset yields the same tag as on a
fresh instance. -/
theorem C8_reset_restores (k m : List Nat) (h : GoHash)
    (hk : poly1305.New k = .ok h) (ops : List GoOp) :
    poly1305.Reset (applyOps h ops) = h
    ∧ (poly1305.Reset (applyOps h ops)).state.buffer = []
    ∧ (poly1305.Sum ((poly1305.Write (poly1305.Reset (applyOps h ops)) m).2) []).1
        = (poly1305.Sum ((poly1305.Write h m).2) []).1 := by
  have hh : poly1305.Reset (applyOps h ops) = h := by
    unfold poly1305.New at hk
    split at hk
    · exact Except.noConfusion hk
    · rw [← Except.ok.inj hk]
      show poly1305.Reset (applyOps { key := k, state := poly1305_init k } ops)
        = { key := k, state := poly1305_init k }
      unfold poly1305.Reset
      rw [applyOps_key]
  exact ⟨hh, rfl, by rw [hh]⟩

/-- Witness for C8: a concrete operation sequence (two writes, one of them
past a block boundary, and an interleaved Sum) under the concrete key. -/
theorem C8_witness :
    poly1305.Reset (applyOps { key := keyVec, state := poly1305_init keyVec }
        [GoOp.write [1, 2, 3], GoOp.sum [], GoOp.write (List.replicate 20 5)])
      = { key := keyVec, state := poly1305_init keyVec }
    ∧ (poly1305.Reset (applyOps { key := keyVec, state := poly1305_init keyVec }
        [GoOp.write [1, 2, 3], GoOp.sum [], GoOp.write (List.replicate 20 5)])).state.buffer = []
    ∧ (poly1305.Sum ((poly1305.Write (poly1305.Reset (applyOps
          { key := keyVec, state := poly1305_init keyVec }
          [GoOp.write [1, 2, 3], GoOp.sum [], GoOp.write (List.replicate 20 5)])) [9]).2) []).1
        = (poly1305.Sum ((poly1305.Write { key := keyVec, state := poly1305_init keyVec } [9]).2) []).1 :=
  C8_reset_restores keyVec [9] { key := keyVec, state := poly1305_init keyVec } rfl
    [GoOp.write [1, 2, 3], GoOp.sum [], GoOp.write (List.replicate 20 5)]

/-- C9: Write never fails — for every instance and every input (empty
included) it returns the pair of the input length and no error. -/
theorem C9_write_total (h : GoHash) (buf : List Nat) :
    (poly1305.Write h buf).1 = (buf.length, none) :=
  rfl

/-- C10: New takes a private snapshot of the key — after New copies the
caller's 32-byte key slice into a freshly allocated array (disjoint from
the caller's slice), overwriting the caller's slice changes no tag the
instance later produces, including the tag computed after a Reset. -/
theorem C10_key_snapshot (m : Mem) (kp a : Nat) (mb msg1 msg2 : List Nat)
    (m2 : Mem) (mh : MemHash)
    (hnew : NewMem m kp 32 a = .ok (m2, mh))
    (hdisj : kp + 32 ≤ a ∨ a + 32 ≤ kp)
    (hmb : mb.length ≤ 32) :
    runTags (writeBytes m2 kp mb) mh msg1 msg2 = runTags m2 mh msg1 msg2 := by
  unfold NewMem at hnew
  rw [if_neg (by decide)] at hnew
  simp only [Except.ok.injEq, Prod.mk.injEq] at hnew
  obtain ⟨hm2, hmh⟩ := hnew
  subst hm2
  subst hmh
  unfold runTags ResetMem
  rw [readBytes_writeBytes_disjoint (writeBytes m a (readBytes m kp 32)) kp a 32 mb
    (by omega)]

/-- Witness for C10: the caller's key slice lives at addresses 0..31 of the
zero memory, the private copy at 32..63; the caller overwrites its slice
with 32 bytes of 7 after construction. -/
theorem C10_witness :
    runTags (writeBytes (writeBytes memZero 32 (readBytes memZero 0 32)) 0 (List.replicate 32 7))
        { keyPtr := 32,
          st := poly1305_init (readBytes (writeBytes memZero 32 (readBytes memZero 0 32)) 32 32) }
        [1, 2] [3]
      = runTags (writeBytes memZero 32 (readBytes memZero 0 32))
        { keyPtr := 32,
          st := poly1305_init (readBytes (writeBytes memZero 32 (readBytes memZero 0 32)) 32 32) }
        [1, 2] [3] :=
  C10_key_snapshot memZero 0 32 (List.replicate 32 7) [1, 2] [3]
    (writeBytes memZero 32 (readBytes memZero 0 32))
    { keyPtr := 32,
      st := poly1305_init (readBytes (writeBytes memZero 32 (readBytes memZero 0 32)) 32 32) }
    rfl (Or.inl (by omega)) (by simp)
